import Mathlib

/-!
# Verification of the adaptive consensus / reliability / aggregation core

Shallow embedding of the scoring core of the repository:

* `adaptive_consensus_algorithm.py` — the adaptive consensus engine
  (`AdaptiveConsensusAlgorithm`): the round dispatcher
  `_adaptive_consensus_process`, the minor-disagreement handler
  `_handle_minor_disagreement`, the dispatched major-disagreement handler
  `_handle_major_disagreement_simple`, and `_create_result`.
* `adaptive_reliability_calculator.py` — the four-factor reliability
  calculator (`AdaptiveReliabilityCalculator`).
* `improved_transparent_pipeline.py` — `_get_additional_scores`,
  `_expand_consensus_score_to_all_dimensions_original`,
  `calculate_big5_scores`, `_calculate_mbti_type`.
* `smart_transparent_pipeline.py` — `infer_mbti_type`.

Numbers are modelled as rationals (`ℚ`); the Python `statistics.stdev`
square root is modelled over `ℝ` with `Real.sqrt`.  The presentation-only
`round(x, 2)` / `round(x, 3)` applied when the Python code stores results
into its result dictionaries is elided: the embedding works with the exact
values the formulas produce.  The `print` logging, the unused
`score_distribution` / `quality_metrics` entries of `_create_result`, and
the never-called `_handle_major_disagreement` / `_handle_still_divided` /
`_remove_max_bias` variants are not part of the embedded behaviour except
where a claim explicitly concerns them.
-/

/-- The trichotomous scale {1,3,5} of allowed raw scores
(`self.allowed_scores = [1, 3, 5]`). -/
def isScale (x : ℤ) : Prop := x = 1 ∨ x = 3 ∨ x = 5

instance (x : ℤ) : Decidable (isScale x) := by unfold isScale; infer_instance

/-- `self.max_evaluators = 7` in `AdaptiveConsensusAlgorithm.__init__`. -/
def max_evaluators : ℕ := 7

/-- Python `max(scores)` on a list of ints (0 on the empty list, which the
source never reaches: Python would raise there). -/
def list_max : List ℤ → ℤ
  | [] => 0
  | [x] => x
  | x :: y :: t => max x (list_max (y :: t))

/-- Python `min(scores)` on a list of ints (0 on the empty list). -/
def list_min : List ℤ → ℤ
  | [] => 0
  | [x] => x
  | x :: y :: t => min x (list_min (y :: t))

/-- Python `statistics.mean` over a list of ints, as an exact rational. -/
def py_mean (l : List ℤ) : ℚ := (l.sum : ℚ) / (l.length : ℚ)

/-- Insertion of one element into a sorted list (ascending). -/
def insert_sorted (x : ℤ) : List ℤ → List ℤ
  | [] => [x]
  | y :: t => if x ≤ y then x :: y :: t else y :: insert_sorted x t

/-- Ascending insertion sort, used to model Python's `sorted`. -/
def sort_list (l : List ℤ) : List ℤ := l.foldr insert_sorted []

/-- Python `statistics.median`: middle element of the sorted list when the
length is odd, mean of the two middle elements when it is even. -/
def py_median (l : List ℤ) : ℚ :=
  let s := sort_list l
  let n := s.length
  if n % 2 = 1 then ((s.getD (n / 2) 0 : ℤ) : ℚ)
  else (((s.getD (n / 2 - 1) 0 + s.getD (n / 2) 0 : ℤ) : ℚ)) / 2

/-- Python `int(x)`: truncation toward zero.  On a rational in lowest
terms this is the numerator divided by the denominator, truncated toward
zero. -/
def py_int (q : ℚ) : ℤ := q.num.tdiv (q.den : ℤ)

/-- `any(count > 1 for count in Counter(scores).values())` in
`_handle_major_disagreement_simple`: some value occurs more than once. -/
def has_repeat (l : List ℤ) : Bool := l.dedup.length < l.length

/-- The consolidated representative computed by
`_handle_major_disagreement_simple`: the median when some value repeats,
otherwise the mean, then cast through `int(...)` as in
`all_scores = [int(consolidated_score)] + new_scores`. -/
def consolidated_value (l : List ℤ) : ℤ :=
  py_int (if has_repeat l then py_median l else py_mean l)

/-- `max(scores) - min(scores)` — `current_diff` in
`_adaptive_consensus_process`. -/
def spread_of (l : List ℤ) : ℤ := list_max l - list_min l

/-- The consensus result record built by `_create_result`
(the dict's `round(consensus_score, 2)` display rounding and the derived
`score_distribution` / `quality_metrics` entries are elided). -/
structure CResult where
  consensus_score : ℚ
  final_scores : List ℤ
  evaluator_count : ℕ
  consensus_method : String
  processing_rounds : ℕ
deriving DecidableEq, Repr

/-- `_create_result(scores, consensus_score, method, round_num)`:
`evaluator_count` is `len(scores)`. -/
def create_result (scores : List ℤ) (consensus : ℚ) (method : String)
    (round_num : ℕ) : CResult :=
  ⟨consensus, scores, scores.length, method, round_num⟩

/-- What one round of `_adaptive_consensus_process` decides before any
recursion happens. -/
inductive RoundOut where
  /-- A stop branch fired: result with this consensus value and method. -/
  | settle (consensus : ℚ) (method : String)
  /-- The `current_diff == 4` branch: `_handle_major_disagreement_simple`
  consolidates the scores to `value` and calls
  `get_additional_scores(req)` (the source always passes `req = 2`). -/
  | consolidate (value : ℤ) (req : ℕ)
  /-- The defensive `else: raise ValueError(...)` branch for a spread that
  is not 0, ≤2 or 4. -/
  | unexpected (diff : ℤ)
deriving DecidableEq, Repr

/-- One round of `_adaptive_consensus_process`: perfect consensus at
spread 0 (consensus = the common value, returned as `max_score`), minor
consensus at spread ≤ 2 (consensus = mean, both branches of
`_handle_minor_disagreement` compute `statistics.mean(scores)`),
consolidation plus a request for 2 more judgments at spread 4
(`_handle_major_disagreement_simple`), and the defensive error branch
otherwise. -/
def consensus_round_outcome (scores : List ℤ) : RoundOut :=
  let diff := spread_of scores
  if diff = 0 then .settle ((list_max scores : ℤ) : ℚ) "perfect_consensus"
  else if diff ≤ 2 then .settle (py_mean scores) "minor_consensus"
  else if diff = 4 then .consolidate (consolidated_value scores) 2
  else .unexpected diff

/-- Observable outcome of running the recursive process with bounded
fuel. -/
inductive COutcome where
  /-- The recursion returned a consensus result. -/
  | ok (res : CResult)
  /-- The defensive `raise ValueError` for an unexpected spread fired. -/
  | spreadError (diff : ℤ)
  /-- The fuel ran out before any branch returned: the Python recursion is
  still running after that many rounds. -/
  | outOfFuel
deriving DecidableEq, Repr

/-- `_adaptive_consensus_process(scores, get_additional_scores, round_num)`
driven by explicit fuel.  `supply r` models what the
`get_additional_scores(2)` callable returns when called during round `r`;
the source appends everything the callable returns after the consolidated
value (`all_scores = [int(consolidated_score)] + new_scores`) and recurses
with `round_num + 1`. -/
def adaptive_consensus_process (supply : ℕ → List ℤ) :
    ℕ → List ℤ → ℕ → COutcome
  | 0, _, _ => .outOfFuel
  | fuel + 1, scores, round_num =>
    match consensus_round_outcome scores with
    | .settle c m => .ok (create_result scores c m round_num)
    | .consolidate v _ =>
        adaptive_consensus_process supply fuel (v :: supply round_num)
          (round_num + 1)
    | .unexpected d => .spreadError d

/-! ## Basic facts about `list_max` / `list_min` -/

lemma list_max_mem : ∀ (l : List ℤ), l ≠ [] → list_max l ∈ l
  | [], h => absurd rfl h
  | [x], _ => by simp [list_max]
  | x :: y :: t, _ => by
    rcases max_choice x (list_max (y :: t)) with h | h
    · simp [list_max, h]
    · have ih := list_max_mem (y :: t) (by simp)
      rw [show list_max (x :: y :: t) = max x (list_max (y :: t)) from rfl, h]
      exact List.mem_cons_of_mem x ih

lemma le_list_max : ∀ (l : List ℤ), ∀ x ∈ l, x ≤ list_max l
  | [], x, hx => by simp at hx
  | [y], x, hx => by
    simp at hx
    simp [hx, list_max]
  | y :: z :: t, x, hx => by
    rw [show list_max (y :: z :: t) = max y (list_max (z :: t)) from rfl]
    rcases List.mem_cons.mp hx with rfl | hx
    · exact le_max_left _ _
    · exact le_trans (le_list_max (z :: t) x hx) (le_max_right _ _)

lemma list_min_mem : ∀ (l : List ℤ), l ≠ [] → list_min l ∈ l
  | [], h => absurd rfl h
  | [x], _ => by simp [list_min]
  | x :: y :: t, _ => by
    rcases min_choice x (list_min (y :: t)) with h | h
    · simp [list_min, h]
    · have ih := list_min_mem (y :: t) (by simp)
      rw [show list_min (x :: y :: t) = min x (list_min (y :: t)) from rfl, h]
      exact List.mem_cons_of_mem x ih

lemma list_min_le : ∀ (l : List ℤ), ∀ x ∈ l, list_min l ≤ x
  | [], x, hx => by simp at hx
  | [y], x, hx => by
    simp at hx
    simp [hx, list_min]
  | y :: z :: t, x, hx => by
    rw [show list_min (y :: z :: t) = min y (list_min (z :: t)) from rfl]
    rcases List.mem_cons.mp hx with rfl | hx
    · exact min_le_left _ _
    · exact le_trans (min_le_right _ _) (list_min_le (z :: t) x hx)

lemma list_min_le_list_max (l : List ℤ) (h : l ≠ []) :
    list_min l ≤ list_max l :=
  le_trans (list_min_le l _ (list_max_mem l h)) (le_refl _)

/-! ## One-round case analysis on scale triples -/

/-- On a triple of scale values the spread is 0, 2 or 4. -/
lemma spread_scale_cases (a b c : ℤ) (ha : isScale a) (hb : isScale b)
    (hc : isScale c) :
    spread_of [a, b, c] = 0 ∨ spread_of [a, b, c] = 2 ∨
      spread_of [a, b, c] = 4 := by
  rcases ha with rfl | rfl | rfl <;> rcases hb with rfl | rfl | rfl <;>
    rcases hc with rfl | rfl | rfl <;> decide

/-- On a triple of scale values the consolidated representative of
`_handle_major_disagreement_simple` is again a scale value (the `int`
cast is the identity there). -/
lemma consolidated_scale (a b c : ℤ) (ha : isScale a) (hb : isScale b)
    (hc : isScale c) : isScale (consolidated_value [a, b, c]) := by
  rcases ha with rfl | rfl | rfl <;> rcases hb with rfl | rfl | rfl <;>
    rcases hc with rfl | rfl | rfl <;>
    norm_num [consolidated_value, has_repeat, py_median, py_mean,
      sort_list, insert_sorted, py_int, isScale]

/-! ## Unfolding lemmas for one round -/

lemma round_outcome_spread0 (l : List ℤ) (h : spread_of l = 0) :
    consensus_round_outcome l =
      .settle ((list_max l : ℤ) : ℚ) "perfect_consensus" := by
  simp [consensus_round_outcome, h]

lemma round_outcome_spread2 (l : List ℤ) (h : spread_of l = 2) :
    consensus_round_outcome l = .settle (py_mean l) "minor_consensus" := by
  simp [consensus_round_outcome, h]

lemma round_outcome_spread4 (l : List ℤ) (h : spread_of l = 4) :
    consensus_round_outcome l = .consolidate (consolidated_value l) 2 := by
  simp [consensus_round_outcome, h]

/-- The two stop branches of the dispatcher only ever mark a result as
`perfect_consensus` or `minor_consensus`. -/
lemma round_outcome_settle_method (l : List ℤ) (c : ℚ) (m : String)
    (h : consensus_round_outcome l = .settle c m) :
    m = "perfect_consensus" ∨ m = "minor_consensus" := by
  simp only [consensus_round_outcome] at h
  split_ifs at h <;> simp_all

/-! ## The run invariant of the dispatched engine

From a valid triple, under the `get_additional_scores` contract
(exactly 2 scale values per call), every round's current list is again a
triple of scale values: the defensive error branch never fires, and every
returned result carries exactly 3 contributing scores and a method that is
`perfect_consensus` or `minor_consensus`. -/
lemma process_invariant (supply : ℕ → List ℤ)
    (hlen : ∀ k, (supply k).length = 2)
    (hval : ∀ k, ∀ x ∈ supply k, isScale x) :
    ∀ (fuel : ℕ) (scores : List ℤ) (r : ℕ),
      scores.length = 3 → (∀ x ∈ scores, isScale x) →
      (∀ d, adaptive_consensus_process supply fuel scores r ≠ .spreadError d)
      ∧ (∀ res, adaptive_consensus_process supply fuel scores r = .ok res →
          res.evaluator_count = 3 ∧
          (res.consensus_method = "perfect_consensus" ∨
            res.consensus_method = "minor_consensus") ∧
          res.final_scores.length = 3 ∧
          (∀ x ∈ res.final_scores, isScale x)) := by
  intro fuel
  induction fuel with
  | zero =>
    intro scores r _ _
    refine ⟨fun d h => ?_, fun res h => ?_⟩ <;>
      simp [adaptive_consensus_process] at h
  | succ n ih =>
    intro scores r h3 hv
    obtain ⟨a, b, c, rfl⟩ := List.length_eq_three.mp h3
    have ha : isScale a := hv a (by simp)
    have hb : isScale b := hv b (by simp)
    have hc : isScale c := hv c (by simp)
    rcases spread_scale_cases a b c ha hb hc with h | h | h
    · rw [show adaptive_consensus_process supply (n + 1) [a, b, c] r =
            .ok (create_result [a, b, c] ((list_max [a, b, c] : ℤ) : ℚ)
              "perfect_consensus" r) by
          simp [adaptive_consensus_process, round_outcome_spread0 _ h]]
      refine ⟨fun d h' => by simp at h', fun res h' => ?_⟩
      obtain rfl : res = create_result [a, b, c] _ "perfect_consensus" r :=
        (COutcome.ok.injEq _ _).mp h' |>.symm
      exact ⟨rfl, Or.inl rfl, rfl, hv⟩
    · rw [show adaptive_consensus_process supply (n + 1) [a, b, c] r =
            .ok (create_result [a, b, c] (py_mean [a, b, c])
              "minor_consensus" r) by
          simp [adaptive_consensus_process, round_outcome_spread2 _ h]]
      refine ⟨fun d h' => by simp at h', fun res h' => ?_⟩
      obtain rfl : res = create_result [a, b, c] _ "minor_consensus" r :=
        (COutcome.ok.injEq _ _).mp h' |>.symm
      exact ⟨rfl, Or.inr rfl, rfl, hv⟩
    · rw [show adaptive_consensus_process supply (n + 1) [a, b, c] r =
            adaptive_consensus_process supply n
              (consolidated_value [a, b, c] :: supply r) (r + 1) by
          simp [adaptive_consensus_process, round_outcome_spread4 _ h]]
      refine ih (consolidated_value [a, b, c] :: supply r) (r + 1) ?_ ?_
      · simp [hlen r]
      · intro x hx
        rcases List.mem_cons.mp hx with rfl | hx
        · exact consolidated_scale a b c ha hb hc
        · exact hval r x hx

/-! ## The `_get_additional_scores` capability of
`improved_transparent_pipeline.py` -/

/-- The in-range check applied to each additional score in
`_get_additional_scores` (and to the initial scores): a value already in
{1,3,5} is kept, otherwise values ≤ 2 become 1, values ≥ 4 become 5, and
anything else becomes 3. -/
def snap_to_scale (s : ℤ) : ℤ :=
  if s = 1 ∨ s = 3 ∨ s = 5 then s
  else if s ≤ 2 then 1
  else if 4 ≤ s then 5
  else 3

/-- `_get_additional_scores(context, question, needed_count, question_id)`:
one loop iteration per requested score; `outcome i = some v` models a
successful `evaluate_single_question` call whose primary-dimension score is
`v` (a missing dimension key defaults to 3 before snapping, which is the
same as `some 3`), and `outcome i = none` models the `except` branch, which
appends the fixed fallback score 3 (`additional_scores.append(3)`). -/
def get_additional_scores (outcome : ℕ → Option ℤ) (needed_count : ℕ) :
    List ℤ :=
  (List.range needed_count).map fun i =>
    match outcome i with
    | none => 3
    | some v => snap_to_scale v

/-! ## Claim C4 — the three branch behaviours of one round -/

/-- C4: in every round on a current triple of scale values: spread 0 gives
a `perfect_consensus` result whose consensus score is the common value;
spread 2 (the only way to have 0 < spread ≤ 2 on this scale) gives a
`minor_consensus` result whose consensus score is the arithmetic mean; and
spread 4 consolidates the list into one representative that equals the
median when some value repeats and the arithmetic mean when all values are
distinct (the `int(...)` cast is the identity on these values). -/
theorem consensus_round_branches (a b c : ℤ) (ha : isScale a)
    (hb : isScale b) (hc : isScale c) :
    (spread_of [a, b, c] = 0 →
      (a = b ∧ b = c) ∧
      consensus_round_outcome [a, b, c] =
        .settle ((a : ℤ) : ℚ) "perfect_consensus") ∧
    (spread_of [a, b, c] = 2 →
      consensus_round_outcome [a, b, c] =
        .settle (py_mean [a, b, c]) "minor_consensus") ∧
    (spread_of [a, b, c] = 4 →
      consensus_round_outcome [a, b, c] =
        .consolidate (consolidated_value [a, b, c]) 2 ∧
      (has_repeat [a, b, c] = true →
        ((consolidated_value [a, b, c] : ℤ) : ℚ) = py_median [a, b, c]) ∧
      (has_repeat [a, b, c] = false →
        ((consolidated_value [a, b, c] : ℤ) : ℚ) = py_mean [a, b, c])) := by
  rcases ha with rfl | rfl | rfl <;> rcases hb with rfl | rfl | rfl <;>
    rcases hc with rfl | rfl | rfl <;>
    refine ⟨fun h0 => ?_, fun h2 => ?_, fun h4 => ?_⟩ <;>
    first
      | (exact absurd h0 (by decide))
      | (exact absurd h2 (by decide))
      | (exact absurd h4 (by decide))
      | (norm_num [consensus_round_outcome, spread_of, list_max, list_min,
          consolidated_value, has_repeat, py_median, py_mean, sort_list,
          insert_sorted, py_int])

/-- Witness for C4 at the concrete triples [3,3,3] (spread 0) and
derived facts at [3,3,5] (spread 2). -/
theorem consensus_round_branches_witness :
    isScale 3 ∧ isScale 5 ∧
    (spread_of [3, 3, 5] = 2 →
      consensus_round_outcome [3, 3, 5] =
        .settle (py_mean [3, 3, 5]) "minor_consensus") :=
  ⟨by decide, by decide,
    (consensus_round_branches 3 3 5 (by decide) (by decide) (by decide)).2.1⟩

/-! ## Claim C10 — the defensive spread branch is unreachable -/

/-- C10: starting from a valid triple of scale values, under a
`request_more` capability that returns exactly the 2 requested values and
only values in {1,3,5}, the dispatcher never reaches its defensive
`raise ValueError` branch for an unexpected spread, for any number of
rounds: every reachable current list is again a triple of scale values
(see `consolidated_scale`). -/
theorem dispatch_error_branch_unreachable (supply : ℕ → List ℤ)
    (hlen : ∀ k, (supply k).length = 2)
    (hval : ∀ k, ∀ x ∈ supply k, isScale x)
    (fuel : ℕ) (init : List ℤ) (r : ℕ)
    (h3 : init.length = 3) (hv : ∀ x ∈ init, isScale x) (d : ℤ) :
    adaptive_consensus_process supply fuel init r ≠ .spreadError d :=
  (process_invariant supply hlen hval fuel init r h3 hv).1 d

/-- Witness for C10 with the constant capability returning [1,3] and the
initial triple [3,3,5]. -/
theorem dispatch_error_branch_unreachable_witness :
    ([3, 3, 5] : List ℤ).length = 3 ∧
    adaptive_consensus_process (fun _ => [1, 3]) 4 [3, 3, 5] 1 ≠
      .spreadError 0 :=
  ⟨rfl,
    dispatch_error_branch_unreachable (fun _ => [1, 3]) (fun _ => rfl)
      (fun _ x hx => by
        rcases List.mem_cons.mp hx with rfl | hx
        · exact Or.inl rfl
        · rcases List.mem_cons.mp hx with rfl | hx
          · exact Or.inr (Or.inl rfl)
          · simp at hx)
      4 [3, 3, 5] 1 rfl
      (fun x hx => by
        rcases List.mem_cons.mp hx with rfl | hx
        · exact Or.inr (Or.inl rfl)
        · rcases List.mem_cons.mp hx with rfl | hx
          · exact Or.inr (Or.inl rfl)
          · rcases List.mem_cons.mp hx with rfl | hx
            · exact Or.inr (Or.inr rfl)
            · simp at hx)
      0⟩

/-! ## Claim C1 — no forcing at the `max_evaluators` cap -/

/-- Counterexample to C1 as stated: at a current list of 7 scores
(`evaluator_count = max_evaluators`) with spread 4, the dispatched
major-disagreement handler still consolidates and requests 2 more
judgments, instead of forcing a consensus result with method `forced`.
The forcing branch exists only in the never-called
`_handle_still_divided` variant (and even there the forced result keeps
6 scores, not `max_evaluators`). -/
theorem cap_forcing_absent :
    ([1, 1, 1, 1, 5, 5, 5] : List ℤ).length = max_evaluators ∧
    spread_of [1, 1, 1, 1, 5, 5, 5] = 4 ∧
    consensus_round_outcome [1, 1, 1, 1, 5, 5, 5] = .consolidate 1 2 := by
  refine ⟨rfl, by decide, ?_⟩
  norm_num [consensus_round_outcome, spread_of, list_max, list_min,
    consolidated_value, has_repeat, py_median, py_mean, sort_list,
    insert_sorted, py_int]

/-- C1 as amended: the dispatched engine requests 2 more judgments in
every spread-4 round regardless of the evaluator count; since each new
round's list is [consolidated value] + 2 new scores, every produced result
has evaluator_count exactly 3 (so it never exceeds max_evaluators = 7) and
its method is never `forced_consensus`. -/
theorem consensus_run_count_and_method (supply : ℕ → List ℤ)
    (hlen : ∀ k, (supply k).length = 2)
    (hval : ∀ k, ∀ x ∈ supply k, isScale x)
    (fuel : ℕ) (init : List ℤ) (r : ℕ)
    (h3 : init.length = 3) (hv : ∀ x ∈ init, isScale x)
    (res : CResult)
    (hok : adaptive_consensus_process supply fuel init r = .ok res) :
    res.evaluator_count = 3 ∧ res.evaluator_count ≤ max_evaluators ∧
      res.consensus_method ≠ "forced_consensus" := by
  obtain ⟨h1, h2, -, -⟩ :=
    (process_invariant supply hlen hval fuel init r h3 hv).2 res hok
  refine ⟨h1, by rw [h1]; decide, ?_⟩
  rcases h2 with h | h <;> simp [h]

/-- Witness for C1 (amended) on the run [1,3,5] with the capability
always answering [3,3]: the run settles in round 2 with 3 contributing
scores. -/
theorem consensus_run_count_and_method_witness :
    adaptive_consensus_process (fun _ => [3, 3]) 2 [1, 3, 5] 1 =
      .ok ⟨3, [3, 3, 3], 3, "perfect_consensus", 2⟩ ∧
    (3 : ℕ) = 3 ∧ (3 : ℕ) ≤ max_evaluators ∧
      ("perfect_consensus" : String) ≠ "forced_consensus" := by
  have hok : adaptive_consensus_process (fun _ => [3, 3]) 2 [1, 3, 5] 1 =
      .ok ⟨3, [3, 3, 3], 3, "perfect_consensus", 2⟩ := by
    norm_num [adaptive_consensus_process, consensus_round_outcome,
      spread_of, list_max, list_min, consolidated_value, has_repeat,
      py_median, py_mean, sort_list, insert_sorted, py_int, create_result]
  have h := consensus_run_count_and_method (fun _ => [3, 3]) (fun _ => rfl)
    (fun _ x hx => by
      rcases List.mem_cons.mp hx with rfl | hx
      · exact Or.inr (Or.inl rfl)
      · rcases List.mem_cons.mp hx with rfl | hx
        · exact Or.inr (Or.inl rfl)
        · simp at hx)
    2 [1, 3, 5] 1 rfl
    (fun x hx => by
      rcases List.mem_cons.mp hx with rfl | hx
      · exact Or.inl rfl
      · rcases List.mem_cons.mp hx with rfl | hx
        · exact Or.inr (Or.inl rfl)
        · rcases List.mem_cons.mp hx with rfl | hx
          · exact Or.inr (Or.inr rfl)
          · simp at hx)
    ⟨3, [3, 3, 3], 3, "perfect_consensus", 2⟩ hok
  exact ⟨hok, h.1, h.2.1, h.2.2⟩

/-! ## Claim C2 — the recursion does not terminate -/

/-- On the state [3,1,5] with the capability always answering [1,5], one
round consolidates to 3 and reproduces the state [3,1,5], so the recursion
never leaves this state. -/
lemma process_loop_315 :
    ∀ (fuel r : ℕ),
      adaptive_consensus_process (fun _ => [1, 5]) fuel [3, 1, 5] r =
        .outOfFuel := by
  intro fuel
  induction fuel with
  | zero => intro r; rfl
  | succ n ih =>
    intro r
    have hstep : consensus_round_outcome [3, 1, 5] = .consolidate 3 2 := by
      norm_num [consensus_round_outcome, spread_of, list_max, list_min,
        consolidated_value, has_repeat, py_median, py_mean, sort_list,
        insert_sorted, py_int]
    simp only [adaptive_consensus_process, hstep]
    exact ih (r + 1)

/-- C2 fails on the code: from the valid triple [1,3,5], with a valid
capability that always returns exactly the 2 requested scale values
[1,5], the recursive dispatcher never reaches any stop branch — for every
fuel bound the run is still going.  (In Python this recursion runs until
`RecursionError`; the `max_evaluators` cap declared in `__init__` and
promised by the class docstring is never consulted by
`_handle_major_disagreement_simple`.) -/
theorem adaptive_consensus_nonterminating :
    ∀ (fuel r : ℕ),
      adaptive_consensus_process (fun _ => [1, 5]) fuel [1, 3, 5] r =
        .outOfFuel := by
  intro fuel
  cases fuel with
  | zero => intro r; rfl
  | succ n =>
    intro r
    have hstep : consensus_round_outcome [1, 3, 5] = .consolidate 3 2 := by
      norm_num [consensus_round_outcome, spread_of, list_max, list_min,
        consolidated_value, has_repeat, py_median, py_mean, sort_list,
        insert_sorted, py_int]
    simp only [adaptive_consensus_process, hstep]
    exact process_loop_315 n (r + 1)

/-- Witness for C2's theorem at concrete fuel 5. -/
theorem adaptive_consensus_nonterminating_witness :
    adaptive_consensus_process (fun _ => [1, 5]) 5 [1, 3, 5] 1 =
      .outOfFuel :=
  adaptive_consensus_nonterminating 5 1

/-! ## Claim C3 — evaluator shortfall is papered over, not raised -/

/-- Counterexample to C3 as stated: when the capability returns fewer
scores than requested (here: none at all), the engine neither raises nor
stops producing a result — it silently recurses on the 1-element list made
of just the consolidated value and returns a `perfect_consensus` result
based on it. -/
theorem shortfall_produces_result :
    adaptive_consensus_process (fun _ => []) 2 [1, 3, 5] 1 =
      .ok ⟨3, [3], 1, "perfect_consensus", 2⟩ := by
  norm_num [adaptive_consensus_process, consensus_round_outcome,
    spread_of, list_max, list_min, consolidated_value, has_repeat,
    py_median, py_mean, sort_list, insert_sorted, py_int, create_result]

/-- C3 as amended: the engine performs no shortfall check at all (see
`shortfall_produces_result`), and the repository's `_get_additional_scores`
capability never returns fewer scores than requested because every failed
evaluation is replaced by the fixed neutral score 3. -/
theorem get_additional_scores_pads (outcome : ℕ → Option ℤ) (n : ℕ) :
    (get_additional_scores outcome n).length = n ∧
    ∀ i < n, outcome i = none →
      (get_additional_scores outcome n).getD i 0 = 3 := by
  constructor
  · simp [get_additional_scores]
  · intro i hi hnone
    unfold get_additional_scores
    rw [List.getD_eq_getElem?_getD, List.getElem?_map,
      List.getElem?_range hi]
    simp [hnone]

/-- Witness for C3 (amended): two failed evaluations still yield the two
requested scores, both the neutral 3. -/
theorem get_additional_scores_pads_witness :
    (get_additional_scores (fun _ => none) 2).length = 2 ∧
    (get_additional_scores (fun _ => none) 2).getD 0 0 = 3 :=
  ⟨(get_additional_scores_pads (fun _ => none) 2).1,
    (get_additional_scores_pads (fun _ => none) 2).2 0 (by decide) rfl⟩

/-! ## The adaptive reliability calculator
(`adaptive_reliability_calculator.py`) -/

/-- The `method_scores` base table of `_assess_consensus_quality`, looked
up with `dict.get(consensus_method, 0.3)`.  Note that the forced method
string `forced_consensus` (and likewise `bias_removed_consensus` /
`final_consensus`) is not a key, so it falls to the 0.3 default. -/
def method_base_score (m : String) : ℚ :=
  if m = "perfect_consensus" then 1
  else if m = "minor_consensus" then 0.8
  else if m = "median_consensus" then 0.7
  else if m = "average_consensus" then 0.6
  else if m = "extended_consensus" then 0.5
  else if m = "max_divergence_consensus" then 0.4
  else 0.3

/-- The range-improvement adjustment of `_assess_consensus_quality`:
`min(improvement * 0.2, 0.2)` when the original range is positive, else 0.
There is no lower clamp, so a worsened range gives a negative
adjustment. -/
def quality_adjustment (original_scores final_scores : List ℤ) : ℚ :=
  if 0 < spread_of original_scores then
    min ((((spread_of original_scores - spread_of final_scores : ℤ) : ℚ) /
      ((spread_of original_scores : ℤ) : ℚ)) * 0.2) 0.2
  else 0

/-- `_assess_consensus_quality`: base score keyed by method plus the
range-improvement adjustment, capped at 1 by `min(..., 1.0)`. -/
def assess_consensus_quality (original_scores final_scores : List ℤ)
    (m : String) : ℚ :=
  min (method_base_score m + quality_adjustment original_scores final_scores)
    1

/-- `_assess_evaluator_diversity`: 0.4·(distinct fraction of the original
scores) + 0.4·(distinct fraction of the final scores) + 0.2·(round
efficiency `max(0, 1 - (rounds-1)*0.2)`). -/
def assess_evaluator_diversity (original_scores final_scores : List ℤ)
    (rounds : ℕ) : ℚ :=
  0.4 * ((original_scores.dedup.length : ℚ) / (original_scores.length : ℚ)) +
  0.4 * ((final_scores.dedup.length : ℚ) / (final_scores.length : ℚ)) +
  0.2 * max 0 (1 - ((rounds : ℚ) - 1) * 0.2)

/-- The `method_efficiency` table of `_assess_processing_efficiency`,
default 0.5. -/
def method_efficiency_factor (m : String) : ℚ :=
  if m = "perfect_consensus" then 1
  else if m = "minor_consensus" then 0.9
  else if m = "median_consensus" then 0.8
  else if m = "average_consensus" then 0.7
  else if m = "extended_consensus" then 0.6
  else if m = "max_divergence_consensus" then 0.5
  else 0.5

/-- The round-count term of `_assess_processing_efficiency`: fewer rounds
score higher, floored at 0.4 from round 3 on. -/
def round_count_efficiency (rounds : ℕ) : ℚ :=
  if rounds = 1 then 1
  else if rounds = 2 then 0.8
  else max 0.4 (1 - ((rounds : ℚ) - 2) * 0.2)

/-- `_assess_processing_efficiency`: average of the round-count term and
the method-cost term. -/
def assess_processing_efficiency (rounds : ℕ) (m : String) : ℚ :=
  (round_count_efficiency rounds + method_efficiency_factor m) / 2

/-- The square of Python's `statistics.stdev` (sample standard deviation,
denominator `n - 1`), as an exact rational. -/
def sample_variance (l : List ℤ) : ℚ :=
  ((l.map fun x => (((x : ℤ) : ℚ) - py_mean l) ^ 2).sum) /
    ((l.length : ℚ) - 1)

/-- `max(Counter(scores).values())`: the multiplicity of the most frequent
value. -/
def mode_count (l : List ℤ) : ℤ :=
  list_max (l.dedup.map fun x => (l.count x : ℤ))

/-- `_assess_final_agreement`: 1.0 for fewer than 2 scores, otherwise
0.4·(standard-deviation consistency, against the maximum possible
std 2.0) + 0.4·(mode proportion) + 0.2·(range term, against the maximum
range 4). -/
noncomputable def assess_final_agreement (final_scores : List ℤ) : ℝ :=
  if final_scores.length < 2 then 1
  else
    0.4 * max 0 (1 - Real.sqrt ((sample_variance final_scores : ℚ) : ℝ) / 2) +
    0.4 * (((mode_count final_scores : ℤ) : ℝ) / (final_scores.length : ℝ)) +
    0.2 * max 0 (1 - ((spread_of final_scores : ℤ) : ℝ) / 4)

/-- `calculate_adaptive_reliability`: the weighted sum
0.4·consensus_quality + 0.3·evaluator_diversity +
0.2·processing_efficiency + 0.1·final_agreement, reading `final_scores`,
`consensus_method` and `processing_rounds` out of the consensus result. -/
noncomputable def calculate_adaptive_reliability (res : CResult)
    (original_scores : List ℤ) : ℝ :=
  0.4 * ((assess_consensus_quality original_scores res.final_scores
      res.consensus_method : ℚ) : ℝ) +
  0.3 * ((assess_evaluator_diversity original_scores res.final_scores
      res.processing_rounds : ℚ) : ℝ) +
  0.2 * ((assess_processing_efficiency res.processing_rounds
      res.consensus_method : ℚ) : ℝ) +
  0.1 * assess_final_agreement res.final_scores

/-! ## Bounds for the reliability terms -/

lemma method_base_score_bounds (m : String) :
    0.3 ≤ method_base_score m ∧ method_base_score m ≤ 1 := by
  unfold method_base_score
  split_ifs <;> norm_num

lemma method_efficiency_factor_bounds (m : String) :
    0.5 ≤ method_efficiency_factor m ∧ method_efficiency_factor m ≤ 1 := by
  unfold method_efficiency_factor
  split_ifs <;> norm_num

/-- Difference of two scale values, larger first, is 0, 2 or 4. -/
lemma scale_diff_cases (x y : ℤ) (hx : isScale x) (hy : isScale y)
    (h : y ≤ x) : x - y = 0 ∨ x - y = 2 ∨ x - y = 4 := by
  rcases hx with rfl | rfl | rfl <;> rcases hy with rfl | rfl | rfl <;> omega

/-- The range of a non-empty list of scale values is 0, 2 or 4. -/
lemma spread_scale_list (l : List ℤ) (hne : l ≠ [])
    (hs : ∀ x ∈ l, isScale x) :
    spread_of l = 0 ∨ spread_of l = 2 ∨ spread_of l = 4 :=
  scale_diff_cases _ _ (hs _ (list_max_mem l hne)) (hs _ (list_min_mem l hne))
    (list_min_le_list_max l hne)

lemma quality_adjustment_bounds (original_scores final_scores : List ℤ)
    (ho : original_scores ≠ []) (hos : ∀ x ∈ original_scores, isScale x)
    (hf : final_scores ≠ []) (hfs : ∀ x ∈ final_scores, isScale x) :
    -0.2 ≤ quality_adjustment original_scores final_scores ∧
      quality_adjustment original_scores final_scores ≤ 0.2 := by
  have hoR := spread_scale_list original_scores ho hos
  have hfR := spread_scale_list final_scores hf hfs
  unfold quality_adjustment
  split_ifs with hpos
  · have hf4 : spread_of final_scores ≤ 4 := by rcases hfR with h | h | h <;> omega
    have ho2 : (2 : ℤ) ≤ spread_of original_scores := by
      rcases hoR with h | h | h <;> omega
    have hoQ : (0 : ℚ) < ((spread_of original_scores : ℤ) : ℚ) := by
      exact_mod_cast lt_of_lt_of_le (by norm_num) ho2
    have key : (-1 : ℚ) ≤
        ((spread_of original_scores - spread_of final_scores : ℤ) : ℚ) /
          ((spread_of original_scores : ℤ) : ℚ) := by
      rw [le_div_iff₀ hoQ]
      have h4 : ((spread_of final_scores : ℤ) : ℚ) ≤ 4 := by exact_mod_cast hf4
      have h2 : (2 : ℚ) ≤ ((spread_of original_scores : ℤ) : ℚ) := by
        exact_mod_cast ho2
      push_cast
      linarith
    constructor
    · rw [le_min_iff]
      exact ⟨by linarith, by norm_num⟩
    · exact min_le_right _ _
  · norm_num

lemma assess_consensus_quality_bounds (original_scores final_scores : List ℤ)
    (ho : original_scores ≠ []) (hos : ∀ x ∈ original_scores, isScale x)
    (hf : final_scores ≠ []) (hfs : ∀ x ∈ final_scores, isScale x)
    (m : String) :
    0 ≤ assess_consensus_quality original_scores final_scores m ∧
      assess_consensus_quality original_scores final_scores m ≤ 1 := by
  obtain ⟨hb1, _⟩ := method_base_score_bounds m
  obtain ⟨ha1, _⟩ :=
    quality_adjustment_bounds original_scores final_scores ho hos hf hfs
  unfold assess_consensus_quality
  exact ⟨le_min_iff.mpr ⟨by linarith, by norm_num⟩, min_le_right _ _⟩

lemma distinct_fraction_bounds (l : List ℤ) (h : l ≠ []) :
    0 ≤ ((l.dedup.length : ℚ) / (l.length : ℚ)) ∧
      ((l.dedup.length : ℚ) / (l.length : ℚ)) ≤ 1 := by
  have hlen : 0 < l.length := List.length_pos.mpr h
  have hd : l.dedup.length ≤ l.length := l.dedup_sublist.length_le
  constructor
  · positivity
  · rw [div_le_one (by exact_mod_cast hlen)]
    exact_mod_cast hd

lemma assess_evaluator_diversity_bounds
    (original_scores final_scores : List ℤ)
    (ho : original_scores ≠ []) (hf : final_scores ≠ [])
    (rounds : ℕ) (hr : 1 ≤ rounds) :
    0 ≤ assess_evaluator_diversity original_scores final_scores rounds ∧
      assess_evaluator_diversity original_scores final_scores rounds ≤ 1 := by
  obtain ⟨ho0, ho1⟩ := distinct_fraction_bounds original_scores ho
  obtain ⟨hf0, hf1⟩ := distinct_fraction_bounds final_scores hf
  have hre0 : (0 : ℚ) ≤ max 0 (1 - ((rounds : ℚ) - 1) * 0.2) :=
    le_max_left 0 _
  have hre1 : max 0 (1 - ((rounds : ℚ) - 1) * 0.2) ≤ 1 := by
    have : (1 : ℚ) ≤ (rounds : ℚ) := by exact_mod_cast hr
    rw [max_le_iff]
    constructor <;> nlinarith
  unfold assess_evaluator_diversity
  constructor <;> nlinarith

lemma round_count_efficiency_bounds (rounds : ℕ) (hr : 1 ≤ rounds) :
    0.4 ≤ round_count_efficiency rounds ∧ round_count_efficiency rounds ≤ 1 := by
  unfold round_count_efficiency
  split_ifs with h1 h2
  · norm_num
  · norm_num
  · have h3 : 3 ≤ rounds := by omega
    have h3Q : (3 : ℚ) ≤ (rounds : ℚ) := by exact_mod_cast h3
    refine ⟨le_max_left _ _, ?_⟩
    rw [max_le_iff]
    constructor <;> nlinarith

lemma assess_processing_efficiency_bounds (rounds : ℕ) (hr : 1 ≤ rounds)
    (m : String) :
    0 ≤ assess_processing_efficiency rounds m ∧
      assess_processing_efficiency rounds m ≤ 1 := by
  obtain ⟨hm0, hm1⟩ := method_efficiency_factor_bounds m
  obtain ⟨hre0, hre1⟩ := round_count_efficiency_bounds rounds hr
  unfold assess_processing_efficiency
  constructor <;> linarith

lemma mode_count_bounds (l : List ℤ) (h : l ≠ []) :
    0 ≤ mode_count l ∧ mode_count l ≤ (l.length : ℤ) := by
  have hd : l.dedup ≠ [] := by simpa [List.dedup_eq_nil] using h
  have hmap : (l.dedup.map fun x => (l.count x : ℤ)) ≠ [] := by simpa using hd
  have hmem := list_max_mem _ hmap
  rw [List.mem_map] at hmem
  obtain ⟨x, -, hx⟩ := hmem
  unfold mode_count
  rw [← hx]
  constructor
  · exact_mod_cast Nat.zero_le _
  · exact_mod_cast l.count_le_length x

lemma assess_final_agreement_bounds (final_scores : List ℤ)
    (hf : final_scores ≠ []) :
    0 ≤ assess_final_agreement final_scores ∧
      assess_final_agreement final_scores ≤ 1 := by
  unfold assess_final_agreement
  split_ifs with hlen
  · norm_num
  · have hlpos : (0 : ℝ) < (final_scores.length : ℝ) := by
      exact_mod_cast List.length_pos.mpr hf
    have hsq : (0 : ℝ) ≤
        Real.sqrt ((sample_variance final_scores : ℚ) : ℝ) :=
      Real.sqrt_nonneg _
    have hc0 : (0 : ℝ) ≤ max 0
        (1 - Real.sqrt ((sample_variance final_scores : ℚ) : ℝ) / 2) :=
      le_max_left 0 _
    have hc1 : max 0
        (1 - Real.sqrt ((sample_variance final_scores : ℚ) : ℝ) / 2) ≤ 1 :=
      max_le (by norm_num) (by linarith)
    obtain ⟨hm0, hm1⟩ := mode_count_bounds final_scores hf
    have hms0 : (0 : ℝ) ≤
        ((mode_count final_scores : ℤ) : ℝ) / (final_scores.length : ℝ) := by
      have : (0 : ℝ) ≤ ((mode_count final_scores : ℤ) : ℝ) := by
        exact_mod_cast hm0
      positivity
    have hms1 :
        ((mode_count final_scores : ℤ) : ℝ) / (final_scores.length : ℝ)
          ≤ 1 := by
      rw [div_le_one hlpos]
      exact_mod_cast hm1
    have hrangeZ : (0 : ℤ) ≤ spread_of final_scores :=
      sub_nonneg.mpr (list_min_le_list_max _ hf)
    have hrangeR : (0 : ℝ) ≤ ((spread_of final_scores : ℤ) : ℝ) := by
      exact_mod_cast hrangeZ
    have hr0 : (0 : ℝ) ≤ max 0
        (1 - ((spread_of final_scores : ℤ) : ℝ) / 4) := le_max_left 0 _
    have hr1 : max 0 (1 - ((spread_of final_scores : ℤ) : ℝ) / 4) ≤ 1 :=
      max_le (by norm_num) (by linarith)
    constructor <;> linarith

/-! ## Claim C7 — all reliability scores lie in [0,1] -/

/-- C7: for every valid consensus result (non-empty original and final
score lists with values in {1,3,5}, any method string, round count ≥ 1),
each of the four sub-scores and the overall weighted reliability lie in
[0,1]. -/
theorem reliability_metrics_in_unit_interval (cs : ℚ) (n : ℕ)
    (original_scores final_scores : List ℤ) (m : String) (r : ℕ)
    (ho : original_scores ≠ []) (hos : ∀ x ∈ original_scores, isScale x)
    (hf : final_scores ≠ []) (hfs : ∀ x ∈ final_scores, isScale x)
    (hr : 1 ≤ r) :
    (0 ≤ assess_consensus_quality original_scores final_scores m ∧
      assess_consensus_quality original_scores final_scores m ≤ 1) ∧
    (0 ≤ assess_evaluator_diversity original_scores final_scores r ∧
      assess_evaluator_diversity original_scores final_scores r ≤ 1) ∧
    (0 ≤ assess_processing_efficiency r m ∧
      assess_processing_efficiency r m ≤ 1) ∧
    (0 ≤ assess_final_agreement final_scores ∧
      assess_final_agreement final_scores ≤ 1) ∧
    (0 ≤ calculate_adaptive_reliability
        ⟨cs, final_scores, n, m, r⟩ original_scores ∧
      calculate_adaptive_reliability
        ⟨cs, final_scores, n, m, r⟩ original_scores ≤ 1) := by
  obtain ⟨hq0, hq1⟩ :=
    assess_consensus_quality_bounds original_scores final_scores
      ho hos hf hfs m
  obtain ⟨hd0, hd1⟩ :=
    assess_evaluator_diversity_bounds original_scores final_scores
      ho hf r hr
  obtain ⟨he0, he1⟩ := assess_processing_efficiency_bounds r hr m
  obtain ⟨ha0, ha1⟩ := assess_final_agreement_bounds final_scores hf
  refine ⟨⟨hq0, hq1⟩, ⟨hd0, hd1⟩, ⟨he0, he1⟩, ⟨ha0, ha1⟩, ?_, ?_⟩ <;>
  · unfold calculate_adaptive_reliability
    simp only
    have hq0R : (0 : ℝ) ≤
        ((assess_consensus_quality original_scores final_scores m : ℚ) : ℝ) := by
      exact_mod_cast hq0
    have hq1R :
        ((assess_consensus_quality original_scores final_scores m : ℚ) : ℝ)
          ≤ 1 := by exact_mod_cast hq1
    have hd0R : (0 : ℝ) ≤
        ((assess_evaluator_diversity original_scores final_scores r : ℚ) : ℝ) := by
      exact_mod_cast hd0
    have hd1R :
        ((assess_evaluator_diversity original_scores final_scores r : ℚ) : ℝ)
          ≤ 1 := by exact_mod_cast hd1
    have he0R : (0 : ℝ) ≤
        ((assess_processing_efficiency r m : ℚ) : ℝ) := by exact_mod_cast he0
    have he1R : ((assess_processing_efficiency r m : ℚ) : ℝ) ≤ 1 := by
      exact_mod_cast he1
    linarith

/-- Witness for C7 at the perfect resolution of [3,3,3] in one round. -/
theorem reliability_metrics_in_unit_interval_witness :
    (([3, 3, 3] : List ℤ) ≠ [] ∧ (∀ x ∈ ([3, 3, 3] : List ℤ), isScale x)) ∧
    (0 ≤ calculate_adaptive_reliability
        ⟨3, [3, 3, 3], 3, "perfect_consensus", 1⟩ [3, 3, 3] ∧
      calculate_adaptive_reliability
        ⟨3, [3, 3, 3], 3, "perfect_consensus", 1⟩ [3, 3, 3] ≤ 1) :=
  ⟨⟨by simp, by decide⟩,
    (reliability_metrics_in_unit_interval 3 3 [3, 3, 3] [3, 3, 3]
      "perfect_consensus" 1 (by simp) (by decide) (by simp) (by decide)
      (by norm_num)).2.2.2.2⟩

/-! ## Claim C5 — the reliability formula and the method base table -/

/-- Counterexample to C5 as stated: the method string produced by the
forcing branch of the engine (`forced_consensus`, in the
`_handle_still_divided` cap branch) is not a key of the `method_scores`
table, so its base value is the 0.3 default, not the claimed 0.4; with no
range change the consensus-quality term for a forced result is therefore
0.3.  (The 0.4 entry belongs to `max_divergence_consensus`, and no method
named `consolidated-recurse` exists: the 0.5 entry belongs to
`extended_consensus`.) -/
theorem forced_method_base_is_default :
    method_base_score "forced_consensus" = 0.3 ∧
    assess_consensus_quality [1, 3, 5] [1, 3, 5] "forced_consensus" = 0.3 ∧
    (0.3 : ℚ) ≠ 0.4 := by
  have hbase : method_base_score "forced_consensus" = 0.3 := by
    simp +decide [method_base_score]
  have hqa : quality_adjustment [1, 3, 5] [1, 3, 5] = 0 := by
    norm_num [quality_adjustment, spread_of, list_max, list_min]
  refine ⟨hbase, ?_, by norm_num⟩
  unfold assess_consensus_quality
  rw [hbase, hqa]
  norm_num

/-- C5 as amended: the overall value is the weighted sum
0.4·consensus_quality + 0.3·evaluator_diversity +
0.2·processing_efficiency + 0.1·final_agreement; consensus_quality is the
method-keyed base plus the range-improvement boost, capped at 1, where the
bases keyed in the source are perfect_consensus = 1.0,
minor_consensus = 0.8, median_consensus = 0.7, average_consensus = 0.6,
extended_consensus = 0.5, max_divergence_consensus = 0.4, and every other
method (including forced_consensus) falls to the 0.3 default; the boost
never exceeds +0.2 (but is not clamped below, so a worsened range
subtracts). -/
theorem reliability_weighted_sum_and_method_bases (cs : ℚ) (n : ℕ)
    (original_scores final_scores : List ℤ) (m : String) (r : ℕ) :
    calculate_adaptive_reliability ⟨cs, final_scores, n, m, r⟩
        original_scores =
      0.4 * ((assess_consensus_quality original_scores final_scores m : ℚ)
          : ℝ) +
      0.3 * ((assess_evaluator_diversity original_scores final_scores r : ℚ)
          : ℝ) +
      0.2 * ((assess_processing_efficiency r m : ℚ) : ℝ) +
      0.1 * assess_final_agreement final_scores ∧
    assess_consensus_quality original_scores final_scores m =
      min (method_base_score m +
        quality_adjustment original_scores final_scores) 1 ∧
    method_base_score "perfect_consensus" = 1 ∧
    method_base_score "minor_consensus" = 0.8 ∧
    method_base_score "median_consensus" = 0.7 ∧
    method_base_score "average_consensus" = 0.6 ∧
    method_base_score "extended_consensus" = 0.5 ∧
    method_base_score "max_divergence_consensus" = 0.4 ∧
    method_base_score "forced_consensus" = 0.3 ∧
    quality_adjustment original_scores final_scores ≤ 0.2 := by
  refine ⟨rfl, rfl, by simp +decide [method_base_score],
    by simp +decide [method_base_score], by simp +decide [method_base_score],
    by simp +decide [method_base_score], by simp +decide [method_base_score],
    by simp +decide [method_base_score], by simp +decide [method_base_score],
    ?_⟩
  unfold quality_adjustment
  split_ifs
  · exact min_le_right _ _
  · norm_num

/-- Witness for C5 (amended) at a concrete result. -/
theorem reliability_weighted_sum_and_method_bases_witness :
    calculate_adaptive_reliability
        ⟨3, [3, 3, 3], 3, "perfect_consensus", 2⟩ [1, 3, 5] =
      0.4 * ((assess_consensus_quality [1, 3, 5] [3, 3, 3]
          "perfect_consensus" : ℚ) : ℝ) +
      0.3 * ((assess_evaluator_diversity [1, 3, 5] [3, 3, 3] 2 : ℚ) : ℝ) +
      0.2 * ((assess_processing_efficiency 2 "perfect_consensus" : ℚ) : ℝ) +
      0.1 * assess_final_agreement [3, 3, 3] ∧
    quality_adjustment [1, 3, 5] [3, 3, 3] ≤ 0.2 :=
  ⟨(reliability_weighted_sum_and_method_bases 3 3 [1, 3, 5] [3, 3, 3]
      "perfect_consensus" 2).1,
    (reliability_weighted_sum_and_method_bases 3 3 [1, 3, 5] [3, 3, 3]
      "perfect_consensus" 2).2.2.2.2.2.2.2.2.2⟩

/-! ## The Big Five pipeline (`improved_transparent_pipeline.py` and
`smart_transparent_pipeline.py`) -/

/-- The five standard trait dimensions — the keys
`openness_to_experience`, `conscientiousness`, `extraversion`,
`agreeableness`, `neuroticism` used throughout both pipelines. -/
inductive Dim where
  | openness
  | conscientiousness
  | extraversion
  | agreeableness
  | neuroticism
deriving DecidableEq, Repr, Fintype

/-- One entry of the `question_results` list consumed by
`calculate_big5_scores`: `scores d` is
`result['final_adjusted_scores'][d]` when that key is present with a
numeric value (`if dimension in scores` / `isinstance` check), `none`
otherwise; `primary` is the item's primary dimension after the
`dimension_map` lookup, `none` when the raw name is missing or
unrecognized (the lookup default `''`). -/
structure QuestionResult where
  scores : Dim → Option ℚ
  primary : Option Dim

/-- The weight given by `calculate_big5_scores` to one item on one
dimension: 0.7 on the item's mapped primary dimension
(`dimension == standard_primary_dimension and standard_primary_dimension`),
0.075 otherwise — in particular 0.075 on every dimension when the primary
is missing or unrecognized. -/
def weight_for (qr : QuestionResult) (d : Dim) : ℚ :=
  if qr.primary = some d then 0.7 else 0.075

/-- The per-dimension `scores_by_dimension[dimension]` list built by
`calculate_big5_scores`: one (score, weight) pair per item whose vector
contains the dimension. -/
def entries_for (question_results : List QuestionResult) (d : Dim) :
    List (ℚ × ℚ) :=
  question_results.filterMap fun qr =>
    (qr.scores d).map fun s => (s, weight_for qr d)

/-- The weighted average computed by `calculate_big5_scores` before
clamping: `weighted_sum / total_weight_sum`, with the source's default
3.0 when no entry exists or the weights do not sum to a positive value. -/
def big5_raw (question_results : List QuestionResult) (d : Dim) : ℚ :=
  if entries_for question_results d = [] then 3
  else if 0 < ((entries_for question_results d).map Prod.snd).sum then
    ((entries_for question_results d).map fun p => p.1 * p.2).sum /
      ((entries_for question_results d).map Prod.snd).sum
  else 3

/-- `calculate_big5_scores` per dimension: the weighted average clamped
into [1,5] by the final `max(1.0, min(5.0, ...))` normalization pass. -/
def calculate_big5_scores (question_results : List QuestionResult)
    (d : Dim) : ℚ :=
  max 1 (min 5 (big5_raw question_results d))

/-! ## Dimension expansion, neutral-fill mode
(`_expand_consensus_score_to_all_dimensions_original`) -/

/-- Python `round(x)` (banker's rounding: ties go to the even integer),
used in `int(round(consensus_score))`.  A fractional part below 1/2
truncates down, above 1/2 rounds up, exactly 1/2 goes to the even
neighbour; `int()` of the resulting whole float is the identity. -/
def py_round (q : ℚ) : ℤ :=
  if q - ⌊q⌋ < 1 / 2 then ⌊q⌋
  else if 1 / 2 < q - ⌊q⌋ then ⌊q⌋ + 1
  else if ⌊q⌋ % 2 = 0 then ⌊q⌋ else ⌊q⌋ + 1

/-- The in-range correction applied to the rounded primary score in
`_expand_consensus_score_to_all_dimensions_original` (same shape as in
`_get_additional_scores`): keep members of {1,3,5}, send ≤ 2 to 1,
≥ 4 to 5, anything else to 3. -/
def snap_rounded (s : ℤ) : ℤ :=
  if s = 1 ∨ s = 3 ∨ s = 5 then s
  else if s ≤ 2 then 1
  else if 4 ≤ s then 5
  else 3

/-- `_expand_consensus_score_to_all_dimensions_original(consensus_score,
question)`: the primary dimension receives
`snap_rounded (py_round consensus_score)`, every other dimension the
neutral 3; `primary = none` models a question whose raw dimension name
maps outside the five standard keys (then no dimension matches and all
five entries are 3). -/
def expand_consensus_score_original (consensus_score : ℚ)
    (primary : Option Dim) : Dim → ℤ :=
  fun d =>
    if primary = some d then snap_rounded (py_round consensus_score) else 3

/-! ## Typology derivation -/

/-- `infer_mbti_type(big5_scores)` of `smart_transparent_pipeline.py`
(the `.get(..., 3)` defaults are irrelevant for a total score mapping;
the empty-dict `"Unknown"` branch cannot arise with one). -/
def infer_mbti_type (big5_scores : Dim → ℚ) : String :=
  (if big5_scores .extraversion + (5 - big5_scores .neuroticism) >
      (5 - big5_scores .extraversion) + big5_scores .neuroticism
    then "E" else "I") ++
  (if big5_scores .openness ≤ 3 then "S" else "N") ++
  (if big5_scores .agreeableness ≤ 3 then "T" else "F") ++
  (if big5_scores .conscientiousness > 3 then "J" else "P")

/-- `_calculate_mbti_type(big5_scores)` of
`improved_transparent_pipeline.py`: a five-letter code built from the
2.5/3.5 thresholds (note `i_score`/`s_score`/`t_score`/`f_score` are
bound to openness/conscientiousness/agreeableness/neuroticism there). -/
def calculate_mbti_type (big5_scores : Dim → ℚ) : String :=
  (if big5_scores .extraversion < 2.5 then "I" else "E") ++
  (if big5_scores .neuroticism < 2.5 then "N" else "S") ++
  (if big5_scores .agreeableness > 3.5 then "T" else "F") ++
  (if big5_scores .neuroticism > 3.5 then "J" else "P") ++
  (if big5_scores .conscientiousness > 3.5 then "P" else "J")

/-- Modelled from the spec's words (refinement target for C9): axis1 =
'E' if (E + (5−N)) > ((5−E) + N) else 'I'; axis2 = 'S' if O ≤ 3 else 'N';
axis3 = 'T' if A ≤ 3 else 'F'; axis4 = 'J' if C > 3 else 'P'; the code is
the concatenation of the four letters. -/
def typology_from_spec (E O C A N : ℚ) : String :=
  (if E + (5 - N) > (5 - E) + N then "E" else "I") ++
  (if O ≤ 3 then "S" else "N") ++
  (if A ≤ 3 then "T" else "F") ++
  (if C > 3 then "J" else "P")

/-! ## Claim C9 — the typology code -/

/-- Counterexample to C9 as stated: the claim cites both pipeline
implementations, but `_calculate_mbti_type` of
`improved_transparent_pipeline.py` does not compute the four-letter code
of the stated formulas — at the all-neutral profile (every trait 3) it
returns the five-letter "ESFPJ" while the stated formulas give "ISTP". -/
theorem mbti_implementations_disagree :
    calculate_mbti_type (fun _ => 3) = "ESFPJ" ∧
    typology_from_spec 3 3 3 3 3 = "ISTP" ∧
    calculate_mbti_type (fun _ => 3) ≠ typology_from_spec 3 3 3 3 3 := by
  have h1 : calculate_mbti_type (fun _ => 3) = "ESFPJ" := by
    norm_num [calculate_mbti_type]
    decide
  have h2 : typology_from_spec 3 3 3 3 3 = "ISTP" := by
    norm_num [typology_from_spec]
    decide
  refine ⟨h1, h2, ?_⟩
  rw [h1, h2]
  decide

/-- C9 as amended: `infer_mbti_type` of `smart_transparent_pipeline.py`
computes exactly the four-letter code of the stated formulas (and, being
a pure function, identical trait scores always yield an identical code);
`_calculate_mbti_type` of the improved pipeline instead emits a
five-letter code from different 2.5/3.5 thresholds. -/
theorem infer_mbti_type_follows_spec (big5_scores : Dim → ℚ) :
    infer_mbti_type big5_scores =
      typology_from_spec (big5_scores .extraversion)
        (big5_scores .openness) (big5_scores .conscientiousness)
        (big5_scores .agreeableness) (big5_scores .neuroticism) ∧
    (infer_mbti_type big5_scores).length = 4 := by
  refine ⟨rfl, ?_⟩
  unfold infer_mbti_type
  split_ifs <;> rfl

/-- Witness for C9 (amended) at the all-neutral profile. -/
theorem infer_mbti_type_follows_spec_witness :
    infer_mbti_type (fun _ => 3) = typology_from_spec 3 3 3 3 3 ∧
    (infer_mbti_type (fun _ => 3)).length = 4 :=
  ⟨(infer_mbti_type_follows_spec (fun _ => 3)).1,
    (infer_mbti_type_follows_spec (fun _ => 3)).2⟩

/-! ## Claim C8 — neutral-fill expansion -/

/-- Counterexample to C8 as stated: at the reachable consensus score 11/3
(the minor-consensus mean of [3,3,5]) the primary dimension receives
`int(round(11/3)) = 4 → 5`, although the nearest scale value to 11/3 is 3
(distance 2/3 versus 4/3): the code rounds to the nearest integer first
and then thresholds, it does not snap to the nearest value of {1,3,5}. -/
theorem neutral_fill_not_nearest :
    expand_consensus_score_original (11 / 3) (some Dim.extraversion)
      Dim.extraversion = 5 ∧
    |(11 : ℚ) / 3 - 3| < |(11 : ℚ) / 3 - 5| := by
  constructor
  · norm_num [expand_consensus_score_original, snap_rounded, py_round]
  · rw [abs_of_pos (by norm_num), abs_of_neg (by norm_num)]
    norm_num

/-- C8 as amended: in neutral-fill mode the primary dimension receives
`int(round(consensus_score))` (banker's rounding) pushed through the
thresholds ≤ 2 → 1 and ≥ 4 → 5 (3 stays 3, so exactly 3 stays 3), every
other dimension receives the neutral 3 (also every dimension when the
primary is unrecognized), and the vector has exactly 5 entries. -/
theorem neutral_fill_round_then_threshold (c : ℚ) (p : Dim) :
    expand_consensus_score_original c (some p) p =
      (if py_round c ≤ 2 then 1 else if 4 ≤ py_round c then 5 else 3) ∧
    (∀ d, d ≠ p → expand_consensus_score_original c (some p) d = 3) ∧
    (∀ d, expand_consensus_score_original c none d = 3) ∧
    (c = 3 → expand_consensus_score_original c (some p) p = 3) ∧
    Fintype.card Dim = 5 := by
  refine ⟨?_, ?_, ?_, ?_, by decide⟩
  · unfold expand_consensus_score_original
    rw [if_pos rfl]
    by_cases hs : py_round c = 1 ∨ py_round c = 3 ∨ py_round c = 5
    · unfold snap_rounded
      rw [if_pos hs]
      rcases hs with h | h | h <;> rw [h] <;> norm_num
    · unfold snap_rounded
      rw [if_neg hs]
  · intro d hd
    unfold expand_consensus_score_original
    rw [if_neg]
    simpa using fun h => hd h.symm
  · intro d
    unfold expand_consensus_score_original
    rw [if_neg]
    simp
  · rintro rfl
    norm_num [expand_consensus_score_original, snap_rounded, py_round]

/-- Witness for C8 (amended) at the already-on-scale score 5. -/
theorem neutral_fill_round_then_threshold_witness :
    expand_consensus_score_original 5 (some Dim.openness) Dim.openness =
      (if py_round 5 ≤ 2 then 1 else if 4 ≤ py_round 5 then 5 else 3) ∧
    ((3 : ℚ) = 3 →
      expand_consensus_score_original 3 (some Dim.openness) Dim.openness
        = 3) :=
  ⟨(neutral_fill_round_then_threshold 5 Dim.openness).1,
    (neutral_fill_round_then_threshold 3 Dim.openness).2.2.2.1⟩

/-! ## Claim C6 — the weighted trait aggregation -/

lemma entries_for_eq_map (l : List QuestionResult) (d : Dim)
    (hall : ∀ qr ∈ l, qr.scores d ≠ none) :
    entries_for l d =
      l.map fun qr => ((qr.scores d).getD 0, weight_for qr d) := by
  induction l with
  | nil => rfl
  | cons qr t ih =>
    obtain ⟨s, hs⟩ :=
      Option.ne_none_iff_exists'.mp (hall qr (List.mem_cons_self qr t))
    rw [entries_for, List.filterMap_cons, List.map_cons, hs]
    exact congrArg _ (ih fun q hq => hall q (List.mem_cons_of_mem qr hq))

lemma weight_for_lower (qr : QuestionResult) (d : Dim) :
    0.075 ≤ weight_for qr d := by
  unfold weight_for
  split_ifs <;> norm_num

lemma weight_sum_pos (l : List QuestionResult) (d : Dim) (h : l ≠ []) :
    0 < (l.map fun qr => weight_for qr d).sum := by
  rcases l with - | ⟨qr, t⟩
  · exact absurd rfl h
  · rw [List.map_cons, List.sum_cons]
    have h1 := weight_for_lower qr d
    have h2 : (0 : ℚ) ≤ (t.map fun q => weight_for q d).sum :=
      List.sum_nonneg fun x hx => by
        obtain ⟨q, -, rfl⟩ := List.mem_map.mp hx
        linarith [weight_for_lower q d]
    linarith

/-- C6: when every item supplies a score for every dimension (as the
5-entry DimensionVectors guarantee) and the item list is non-empty, the
aggregated trait score for each dimension is the weighted average
Σ(scoreᵢ·weightᵢ)/Σ(weightᵢ) clamped into [1,5], with weightᵢ = 0.7 on the
item's primary dimension and 0.075 everywhere else; an item whose primary
dimension is missing or unrecognized (`primary = none`) contributes with
weight 0.075 to every dimension, and the aggregation still takes the
weighted-average branch (the weight sum is positive, so no default
fires). -/
theorem big5_weighted_average (question_results : List QuestionResult)
    (d : Dim) (hne : question_results ≠ [])
    (hall : ∀ qr ∈ question_results, ∀ d', qr.scores d' ≠ none) :
    calculate_big5_scores question_results d =
      max 1 (min 5
        (((question_results.map fun qr =>
            ((qr.scores d).getD 0) * weight_for qr d).sum) /
          ((question_results.map fun qr => weight_for qr d).sum))) ∧
    0 < (question_results.map fun qr => weight_for qr d).sum ∧
    (∀ qr ∈ question_results, qr.primary = none →
      ∀ d', weight_for qr d' = 0.075) := by
  have hA := entries_for_eq_map question_results d
    fun qr hqr => hall qr hqr d
  have hpos := weight_sum_pos question_results d hne
  refine ⟨?_, hpos, ?_⟩
  · have hmap2 : (entries_for question_results d).map Prod.snd =
        question_results.map fun qr => weight_for qr d := by
      rw [hA, List.map_map]
      rfl
    have hmap1 : (entries_for question_results d).map
          (fun p => p.1 * p.2) =
        question_results.map fun qr =>
          ((qr.scores d).getD 0) * weight_for qr d := by
      rw [hA, List.map_map]
      rfl
    have hnonempty : entries_for question_results d ≠ [] := by
      rw [hA]
      simpa using hne
    unfold calculate_big5_scores big5_raw
    rw [if_neg hnonempty, hmap1, hmap2, if_pos hpos]
  · intro qr _ hnone d'
    unfold weight_for
    rw [if_neg (by simp [hnone])]

/-- Witness for C6 with a single item scoring 5 everywhere, primary
openness. -/
theorem big5_weighted_average_witness :
    (([⟨fun _ => some 5, some Dim.openness⟩] : List QuestionResult) ≠ [])
      ∧
    calculate_big5_scores [⟨fun _ => some 5, some Dim.openness⟩]
        Dim.openness =
      max 1 (min 5
        (((([⟨fun _ => some 5, some Dim.openness⟩] :
              List QuestionResult).map fun qr =>
            ((qr.scores Dim.openness).getD 0) *
              weight_for qr Dim.openness).sum) /
          ((([⟨fun _ => some 5, some Dim.openness⟩] :
              List QuestionResult).map fun qr =>
            weight_for qr Dim.openness).sum))) :=
  ⟨by simp,
    (big5_weighted_average [⟨fun _ => some 5, some Dim.openness⟩]
      Dim.openness (by simp)
      (fun qr hqr d' => by
        rw [List.mem_singleton.mp hqr]
        simp)).1⟩
